import Mathlib

/-!
Shallow embedding of the `@interaktiv.de/csv-parser` package (TypeScript).

The package consists of a CSV parser `parseCSV` (tokenizer, shape check,
header resolution, record projection with per-column callbacks and cell
metadata) and a serializer `toCsv`.  Every definition below is a direct
translation of the corresponding JavaScript source; JavaScript strings are
modelled by `String` (in this toolchain a wrapper around `List Char`),
JavaScript `undefined` string reads (`line[i]` out of range) by
`Option String`, thrown errors and promise rejections by `Except JsErr`.
-/

namespace CsvParser

/-- Errors the source can reject with: `SyntaxError(msg)` raised explicitly,
or a `TypeError` raised by the runtime on a property access on `undefined`. -/
inductive JsErr : Type where
  | typeError : JsErr
  | syntaxError (msg : String) : JsErr
deriving Repr, DecidableEq

/-! ## Cell reference calculator (`numberToCharacters` / `#convertNumberToLetter`) -/

/-- The source's constant `characters` / `#letterArray`: the letters A–Z. -/
def letterArray : List Char :=
  ['A', 'B', 'C', 'D', 'E', 'F', 'G', 'H', 'I', 'J', 'K', 'L', 'M',
   'N', 'O', 'P', 'Q', 'R', 'S', 'T', 'U', 'V', 'W', 'X', 'Y', 'Z']

/-- JavaScript `characters[i]` as used inside `.map(...).join('')`:
an in-range index yields that letter; an out-of-range index (the source can
produce `-1`) yields `undefined`, which `Array.prototype.join` renders as the
empty string. -/
def letterAt (i : Int) : String :=
  if 0 ≤ i ∧ i < 26 then String.singleton (letterArray.getD i.toNat 'A') else ""

/-- The source's `while (num > 0) { out.unshift(num % 26); num = Math.floor(num / 26) }`
loop: the base-26 digits of `n`, most significant first (`[]` for `0`). -/
def toDigits (n : Nat) : List Nat :=
  if h : n = 0 then [] else toDigits (n / 26) ++ [n % 26]
decreasing_by exact Nat.div_lt_self (Nat.pos_of_ne_zero h) (by omega)

/-- Index-carrying `map` (JavaScript `arr.map((it, idx) => ...)`), with an
explicit running index. -/
def mapIdxGo {β γ : Type} (f : Nat → β → γ) : Nat → List β → List γ
  | _, [] => []
  | i, b :: bs => f i b :: mapIdxGo f (i + 1) bs

/-- JavaScript `arr.map((it, idx) => ...)`. -/
def jsMapIdx {β γ : Type} (f : Nat → β → γ) (l : List β) : List γ :=
  mapIdxGo f 0 l

/-- `numberToCharacters` (identically `#convertNumberToLetter` in
`src/index.ts`): 1-based column index to column label.  After the `num--`,
the remainder/quotient loop produces ordinary base-26 digits, and the final
`map` subtracts one from every digit except the least significant
(`idx < length - 1`) before indexing into the letter table. -/
def numberToCharacters (num : Nat) : String :=
  if num = 1 then "A"
  else
    let out := toDigits (num - 1)
    String.join (jsMapIdx (fun idx it =>
      letterAt (if 1 < out.length ∧ idx < out.length - 1
                then (it : Int) - 1 else (it : Int))) out)

/-- `CsvCellMetadata`: position data handed to per-column callbacks. -/
structure CsvCellMetadata : Type where
  columnIndex : Nat
  columnName : String
  rowIndex : Nat
  cellReferenceA1 : String
  cellReferenceRC : String
deriving Repr, DecidableEq

/-- `csvCellMetadataFactory` from the source (the `CsvCellMetadataClass`
getters in `src/index.ts` compute the same strings). -/
def csvCellMetadataFactory (columnIndex : Nat) (columnName : String)
    (rowIndex : Nat) : CsvCellMetadata :=
  { columnIndex := columnIndex
    columnName := columnName
    rowIndex := rowIndex
    cellReferenceA1 := numberToCharacters columnIndex ++ toString rowIndex
    cellReferenceRC := "R" ++ toString rowIndex ++ "C" ++ toString columnIndex }

/-! ## Tokenizer -/

/-- JavaScript `csv.split(/\r?\n/g)` on the character list: a `"\r\n"` pair
or a lone `"\n"` ends a line; a `"\r"` not followed by `"\n"` is ordinary
content. -/
def splitLinesGo : List Char → String → List String
  | [], cur => [cur]
  | '\r' :: '\n' :: rest, cur => cur :: splitLinesGo rest ""
  | '\n' :: rest, cur => cur :: splitLinesGo rest ""
  | c :: rest, cur => splitLinesGo rest (cur.push c)

/-- `csv.split(/\r?\n/g)`. -/
def splitLines (s : String) : List String :=
  splitLinesGo s.data ""

/-- The per-character `switch` of the tokenizer, scanning one line.
`done` holds the closed cells (`result[0..currentCell-1]`), `cur` the cell
being built (`result[currentCell]`).  The `case separator` arm is checked
before `case stringDelimiter`, as in a JavaScript `switch`. -/
def scanChars (sep delim : Char) : List Char → Bool → List String → String → List String
  | [], _, done, cur => done ++ [cur]
  | ch :: tail, inString, done, cur =>
    if ch = sep then
      if inString then scanChars sep delim tail inString done (cur.push ch)
      else scanChars sep delim tail inString (done ++ [cur]) ""
    else if ch = delim then
      match tail with
      | d :: rest =>
        if inString ∧ d = delim then scanChars sep delim rest inString done (cur.push ch)
        else scanChars sep delim (d :: rest) (!inString) done cur
      | [] => scanChars sep delim [] (!inString) done cur
    else scanChars sep delim tail inString done (cur.push ch)

/-- Tokenizing one (non-empty) line: `result = ['']`, `currentCell = 0`,
`inString = false`, then the character loop. -/
def tokenizeLine (sep delim : Char) (line : String) : List String :=
  scanChars sep delim line.data false [] ""

/-- Scanning a line when `result` is `undefined` (see `buildGridGo`): every
arm of the `switch` that touches `result` throws a `TypeError`; only the
plain delimiter arm (`inString = !inString`) is side-effect free.  Returns
`true` iff the scan throws. -/
def lineThrows (sep delim : Char) : List Char → Bool → Bool
  | [], _ => false
  | ch :: rest, inString =>
    if ch = sep then true
    else if ch = delim then
      if inString && (rest.head? = some delim) then true
      else lineThrows sep delim rest (!inString)
    else true

/-- The line loop of `parseCSV`.  The source pushes `['']` onto `cells` but
then takes `const result = cells[i]` with `i` the index into `lines`; after
any skipped empty line, `i` exceeds `cells.length - 1`, so `result` is
`undefined`: the pushed `['']` row is left untouched and any character that
reads or writes `result` throws a `TypeError`, rejecting the promise. -/
def buildGridGo (sep delim : Char) :
    List String → Nat → List (List String) → Except JsErr (List (List String))
  | [], _, cells => .ok cells
  | l :: rest, i, cells =>
    if l = "" then buildGridGo sep delim rest (i + 1) cells
    else if i = cells.length then
      buildGridGo sep delim rest (i + 1) (cells ++ [tokenizeLine sep delim l])
    else if lineThrows sep delim l.data false then .error .typeError
    else buildGridGo sep delim rest (i + 1) (cells ++ [[""]])

/-- The tokenizer stage of `parseCSV`: split into lines, scan each non-empty
line (with the `cells[i]` indexing of the source). -/
def buildGrid (sep delim : Char) (lines : List String) :
    Except JsErr (List (List String)) :=
  buildGridGo sep delim lines 0 []

/-- The shape check `cells.some(line => line.length !== cells[0].length)`
(on an empty grid, `some` is `false` without reading `cells[0]`). -/
def malformed (cells : List (List String)) : Bool :=
  match cells with
  | [] => false
  | c0 :: _ => cells.any fun l => l.length != c0.length

/-! ## Record projection -/

/-- The `header` option: `true` (first row is the header row) or an explicit
array of column names. -/
inductive HeaderOption : Type where
  | firstRow : HeaderOption
  | explicit (headers : List String) : HeaderOption

/-- JavaScript property lookup in the `callbacks` object (`key in callbacks`
followed by `callbacks[key]`); object keys are strings, so a numeric column
index is looked up by its decimal string. -/
def jsLookup {β : Type} : List (String × β) → String → Option β
  | [], _ => none
  | (k, v) :: rest, key => if k = key then some v else jsLookup rest key

/-- The per-cell value resolution of the projector:
`colName in callbacks ? callbacks[colName](...) : colIdx in callbacks ?
callbacks[colIdx](...) : line[colIdx]`.  The cell is `line[colIdx]`, which
is `undefined` (`none`) when the row is shorter than the header list; the
result type of a callback is an arbitrary `α` (JavaScript `any`), and
`ofCell` is the inclusion of a raw cell into `α` used by the bare arm. -/
def resolveCell {α : Type} (callbacks : List (String × (Option String → CsvCellMetadata → α)))
    (ofCell : Option String → α) (colName : String) (colIdx : Nat)
    (cell : Option String) (md : CsvCellMetadata) : α :=
  match jsLookup callbacks colName with
  | some f => f cell md
  | none =>
    match jsLookup callbacks (toString colIdx) with
    | some f => f cell md
    | none => ofCell cell

/-- JavaScript `Object.fromEntries`-style insertion of one entry: an existing
key keeps its position and gets the new value, a fresh key is appended. -/
def upsert {β : Type} : List (String × β) → String → β → List (String × β)
  | [], k, v => [(k, v)]
  | (k', v') :: rest, k, v =>
    if k' = k then (k', v) :: rest else (k', v') :: upsert rest k v

/-- `Object.fromEntries(entries)`: build the object left to right. -/
def fromEntries {β : Type} (entries : List (String × β)) : List (String × β) :=
  entries.foldl (fun acc kv => upsert acc kv.1 kv.2) []

/-- The key sequence `Object.fromEntries` produces, computed from key lists
alone: first occurrences in order (used only in proofs about `fromEntries`). -/
def keysFold : List String → List String → List String
  | ks, [] => ks
  | ks, k :: t => keysFold (if k ∈ ks then ks else ks ++ [k]) t

/-- One projected record:
`Object.fromEntries(headers.map((colName, colIdx) => [colName, ...]))`. -/
def projectRow {α : Type} (callbacks : List (String × (Option String → CsvCellMetadata → α)))
    (ofCell : Option String → α) (headers row : List String) (rowIdx : Nat) :
    List (String × α) :=
  fromEntries (jsMapIdx (fun colIdx colName =>
    (colName, resolveCell callbacks ofCell colName colIdx row[colIdx]?
      (csvCellMetadataFactory (colIdx + 1) colName (rowIdx + 1)))) headers)

/-- `parseCSV` from the source: tokenize, shape-check, resolve headers
(`header: true` consumes row 0 via `cells.shift()`), project each remaining
row.  Rejections of the promise are `Except.error`. -/
def parseCSV {α : Type} (sep delim : Char) (header : HeaderOption)
    (callbacks : List (String × (Option String → CsvCellMetadata → α)))
    (ofCell : Option String → α) (csv : String) :
    Except JsErr (List (List (String × α))) :=
  match buildGrid sep delim (splitLines csv) with
  | .error e => .error e
  | .ok cells =>
    if malformed cells then .error (.syntaxError "Malformed CSV")
    else
      match header with
      | .firstRow =>
        .ok (jsMapIdx (fun rowIdx row =>
          projectRow callbacks ofCell (cells.headD []) row rowIdx) cells.tail)
      | .explicit hs =>
        .ok (jsMapIdx (fun rowIdx row =>
          projectRow callbacks ofCell hs row rowIdx) cells)

/-- `parseCSV` with all defaults: separator `','`, delimiter `'"'`,
`header: true`, empty callback object; record values are then the raw cells
(`Option String`, `none` for `undefined`). -/
def parseCSVDefault (csv : String) : Except JsErr (List (List (String × Option String))) :=
  parseCSV ',' '"' .firstRow [] id csv

/-! ## Serializer (`toCsv`) -/

/-- The JavaScript values the serializer's stringification `if`-chain
distinguishes: `null`/`undefined`, functions (by `.name`), dates (by the
`toISOString()` result they print as), DOM elements (`outerHTML` plus an
optional `innerHTML`), and everything else via its `toString()` result. -/
inductive JsCellValue : Type where
  | nullish : JsCellValue
  | jsFunction (name : String) : JsCellValue
  | date (isoString : String) : JsCellValue
  | htmlElement (outerHTML : String) (innerHTML : Option String) : JsCellValue
  | str (s : String) : JsCellValue
deriving Repr, DecidableEq

/-- Whether `sub` occurs at the front of `l`. -/
def matchesAt : List Char → List Char → Bool
  | [], _ => true
  | _ :: _, [] => false
  | s :: ss, c :: cs => s = c && matchesAt ss cs

/-- Index of the first occurrence of `sub` in `l`, if any. -/
def firstMatchIdx (sub : List Char) : List Char → Option Nat
  | [] => if sub = [] then some 0 else none
  | c :: rest =>
    if matchesAt sub (c :: rest) then some 0
    else (firstMatchIdx sub rest).map (· + 1)

/-- JavaScript `s.indexOf(sub)`: first occurrence or `-1`. -/
def jsIndexOf (s sub : String) : Int :=
  match firstMatchIdx sub.data s.data with
  | some n => (n : Int)
  | none => -1

/-- JavaScript `s.slice(0, e)`: for `e ≥ 0` the first `e` characters, for
`e < 0` all but the last `-e` characters (clamped at zero). -/
def jsSlice0 (s : String) (e : Int) : String :=
  ⟨s.data.take (if 0 ≤ e then e.toNat else s.data.length - (-e).toNat)⟩

/-- The per-value stringification chain of `toCsv`:
`null`/`undefined` → `''`; function → `[function <name>]`; `Date` →
`toISOString()`; `HTMLElement` → `outerHTML.slice(0, outerHTML.indexOf(innerHTML))`
when `innerHTML != null`, else `outerHTML`; otherwise `toString()`. -/
def stringifyCell : JsCellValue → String
  | .nullish => ""
  | .jsFunction name => "[function " ++ name ++ "]"
  | .date isoString => isoString
  | .htmlElement outerHTML innerHTML =>
    match innerHTML with
    | some ih => jsSlice0 outerHTML (jsIndexOf outerHTML ih)
    | none => outerHTML
  | .str s => s

/-- `cell.replace(new RegExp(stringDelimiter, 'g'),
stringDelimiter + stringDelimiter)`: double every delimiter occurrence. -/
def doubleDelims (delim : Char) (s : String) : String :=
  ⟨(s.data.map fun c => if c = delim then [c, c] else [c]).flatten⟩

/-- The cell escaping of `toCsv`.  Note the source tests
`cell.includes('"')` — the literal double-quote character — while wrapping
and doubling use the configured `stringDelimiter`. -/
def escapeCell (sep delim : Char) (cell : String) : String :=
  if '"' ∈ cell.data then
    String.singleton delim ++ doubleDelims delim cell ++ String.singleton delim
  else if ' ' ∈ cell.data ∨ sep ∈ cell.data then
    String.singleton delim ++ cell ++ String.singleton delim
  else cell

/-- `row.map(cell => ...).join(separator)` for one row of stringified cells. -/
def serializeRow (sep delim : Char) (row : List String) : String :=
  String.intercalate (String.singleton sep) (row.map (escapeCell sep delim))

/-- The string grid `csv` built by `toCsv` before escaping:
`[Object.keys(data[0])]` followed by, per record, its stringified values
(`Object.values`). -/
def toCsvRows (data : List (List (String × JsCellValue))) : List (List String) :=
  match data with
  | [] => []
  | d0 :: _ =>
    (d0.map Prod.fst) :: data.map fun r => r.map fun kv => stringifyCell kv.2

/-- `toCsv` from the source.  The argument is `Option`-wrapped because the
source first checks `data == null` (a `null` or `undefined` array) before
`data.length === 0`; both reject with `SyntaxError('data not provided')`.
Otherwise every row is escaped and joined with the separator, and the rows
are joined with `'\n'`. -/
def toCsv (sep delim : Char) (data : Option (List (List (String × JsCellValue)))) :
    Except JsErr String :=
  match data with
  | none => .error (.syntaxError "data not provided")
  | some [] => .error (.syntaxError "data not provided")
  | some (d0 :: rest) =>
    .ok (String.intercalate "\n"
      ((toCsvRows (d0 :: rest)).map (serializeRow sep delim)))

/-- A record value produced by `parseCSVDefault` as the JavaScript value
`toCsv` receives it: a raw cell string, or `undefined`. -/
def toVal : Option String → JsCellValue
  | none => .nullish
  | some s => .str s

/-- Records produced by `parseCSVDefault`, as input for `toCsv`. -/
def recordsToData (records : List (List (String × Option String))) :
    List (List (String × JsCellValue)) :=
  records.map fun r => r.map fun kv => (kv.1, toVal kv.2)

/-- The lines `toCsv` (default options) produces for parse-produced records,
before they are joined with `'\n'`: the header row from the first record's
keys, then one row of stringified, escaped values per record. -/
def serializedLines (records : List (List (String × Option String))) : List String :=
  (toCsvRows (recordsToData records)).map (serializeRow ',' '"')

/-! ## Helper lemmas -/

/-- A run of empty lines leaves the grid untouched. -/
theorem buildGridGo_allEmpty (sep delim : Char) :
    ∀ (lines : List String) (i : Nat) (cells : List (List String)),
      (∀ l ∈ lines, l = "") →
      buildGridGo sep delim lines i cells = .ok cells := by
  intro lines
  induction lines with
  | nil => intro i cells _; rfl
  | cons l rest ih =>
    intro i cells h
    have hl : l = "" := h l (List.mem_cons_self l rest)
    simp only [buildGridGo, hl, if_pos rfl]
    exact ih (i + 1) cells fun x hx => h x (List.mem_cons_of_mem l hx)

/-- Step: an ordinary character is appended to the current cell. -/
theorem scanChars_other (sep delim c : Char) (tail : List Char) (b : Bool)
    (done : List String) (cur : String) (h1 : c ≠ sep) (h2 : c ≠ delim) :
    scanChars sep delim (c :: tail) b done cur =
      scanChars sep delim tail b done (cur.push c) := by
  cases tail <;> (rw [scanChars.eq_def]; simp [h1, h2])

/-- Step: a separator outside a quoted region closes the current cell. -/
theorem scanChars_sep_out (sep delim : Char) (tail : List Char)
    (done : List String) (cur : String) :
    scanChars sep delim (sep :: tail) false done cur =
      scanChars sep delim tail false (done ++ [cur]) "" := by
  cases tail <;> (rw [scanChars.eq_def]; simp)

/-- Step: a separator inside a quoted region is appended to the cell. -/
theorem scanChars_sep_in (sep delim : Char) (tail : List Char)
    (done : List String) (cur : String) :
    scanChars sep delim (sep :: tail) true done cur =
      scanChars sep delim tail true done (cur.push sep) := by
  cases tail <;> (rw [scanChars.eq_def]; simp)

/-- Step: a delimiter outside a quoted region opens one (the escape test
`inString && ...` is false). -/
theorem scanChars_open (sep delim : Char) (tail : List Char)
    (done : List String) (cur : String) (hne : sep ≠ delim) :
    scanChars sep delim (delim :: tail) false done cur =
      scanChars sep delim tail true done cur := by
  cases tail <;> (rw [scanChars.eq_def]; simp [Ne.symm hne])

/-- Step: a closing delimiter at end of line. -/
theorem scanChars_close_eol (sep delim : Char) (done : List String) (cur : String)
    (hne : sep ≠ delim) :
    scanChars sep delim [delim] true done cur = done ++ [cur] := by
  rw [scanChars.eq_def]
  simp [Ne.symm hne]
  rfl

/-- Step: a closing delimiter followed by a non-delimiter character. -/
theorem scanChars_close (sep delim d : Char) (rest : List Char)
    (done : List String) (cur : String) (hne : sep ≠ delim) (hd : d ≠ delim) :
    scanChars sep delim (delim :: d :: rest) true done cur =
      scanChars sep delim (d :: rest) false done cur := by
  rw [scanChars.eq_def]
  simp [Ne.symm hne, hd]

/-- Step: a doubled delimiter inside a quoted region appends one delimiter
and consumes both characters. -/
theorem scanChars_escape (sep delim : Char) (rest : List Char)
    (done : List String) (cur : String) (hne : sep ≠ delim) :
    scanChars sep delim (delim :: delim :: rest) true done cur =
      scanChars sep delim rest true done (cur.push delim) := by
  rw [scanChars.eq_def]
  simp [Ne.symm hne]

/-- Step: a delimiter at a position where the escape test fails toggles the
quoting state (two-or-more characters left). -/
theorem scanChars_toggle (sep delim d : Char) (rest : List Char) (b : Bool)
    (done : List String) (cur : String) (hne : sep ≠ delim)
    (h : ¬(b = true ∧ d = delim)) :
    scanChars sep delim (delim :: d :: rest) b done cur =
      scanChars sep delim (d :: rest) (!b) done cur := by
  rw [scanChars.eq_def]
  simp [Ne.symm hne, h]

/-- Step: a single trailing delimiter toggles and ends the line. -/
theorem scanChars_delim_eol (sep delim : Char) (b : Bool)
    (done : List String) (cur : String) (hne : sep ≠ delim) :
    scanChars sep delim [delim] b done cur = done ++ [cur] := by
  rw [scanChars.eq_def]
  simp [Ne.symm hne]
  rw [scanChars.eq_def]

/-- The scanner's result is `done ++ [...]` with at least the current cell:
never the empty list. -/
theorem scanChars_ne_nil (sep delim : Char) (chars : List Char) (b : Bool)
    (done : List String) (cur : String) :
    scanChars sep delim chars b done cur ≠ [] := by
  induction chars, b, done, cur using scanChars.induct sep delim with
  | case1 b done cur => rw [scanChars.eq_def]; simp
  | case2 tail done cur ih => rw [scanChars_sep_in]; exact ih
  | case3 tail b done cur hb ih =>
    have hb' : b = false := by simpa using hb
    subst hb'
    rw [scanChars_sep_out]; exact ih
  | case4 b done cur d rest h hds ih =>
    obtain ⟨hb, hd⟩ := h
    subst hb
    rw [hd, scanChars_escape sep delim rest done cur (fun he => hds he.symm)]; exact ih
  | case5 b done cur d rest h hds ih =>
    rw [scanChars_toggle sep delim d rest b done cur (fun he => hds he.symm) h]; exact ih
  | case6 b done cur hds _ih =>
    rw [scanChars_delim_eol sep delim b done cur (fun he => hds he.symm)]; simp
  | case7 ch tail b done cur h1 h2 ih =>
    rw [scanChars_other sep delim ch tail b done cur h1 h2]; exact ih

/-- Pushing a character then appending the remaining characters. -/
theorem push_append_chars (cur : String) (c : Char) (cs : List Char) :
    cur.push c ++ (⟨cs⟩ : String) = cur ++ ⟨c :: cs⟩ := by
  apply String.ext
  show (cur.data ++ [c]) ++ cs = cur.data ++ (c :: cs)
  simp

/-- Scanning a run of characters that are neither separator nor delimiter,
outside a quoted region: all are appended to the current cell. -/
theorem scanChars_bare (sep delim : Char) (cs : List Char) :
    ∀ (rest : List Char) (done : List String) (cur : String),
      (∀ c ∈ cs, c ≠ sep ∧ c ≠ delim) →
      scanChars sep delim (cs ++ rest) false done cur =
        scanChars sep delim rest false done (cur ++ ⟨cs⟩) := by
  induction cs with
  | nil => intro rest done cur _; simp [String.append_empty]
  | cons c cs ih =>
    intro rest done cur h
    obtain ⟨h1, h2⟩ := h c (List.mem_cons_self c cs)
    rw [List.cons_append, scanChars_other sep delim c _ false done cur h1 h2,
      ih rest done (cur.push c) fun x hx => h x (List.mem_cons_of_mem c hx),
      push_append_chars]

/-- Scanning a delimiter-free run inside a quoted region: separators and
ordinary characters alike are appended to the current cell. -/
theorem scanChars_quoted (sep delim : Char) (cs : List Char) :
    ∀ (rest : List Char) (done : List String) (cur : String), delim ∉ cs →
      scanChars sep delim (cs ++ rest) true done cur =
        scanChars sep delim rest true done (cur ++ ⟨cs⟩) := by
  induction cs with
  | nil => intro rest done cur _; simp [String.append_empty]
  | cons c cs ih =>
    intro rest done cur h
    have h2 : c ≠ delim := fun hc => h (hc ▸ List.mem_cons_self c cs)
    have hmem : delim ∉ cs := fun hm => h (List.mem_cons_of_mem c hm)
    by_cases h1 : c = sep
    · rw [List.cons_append, h1, scanChars_sep_in, ih rest done (cur.push sep) hmem,
        ← h1, push_append_chars]
    · rw [List.cons_append, scanChars_other sep delim c _ true done cur h1 h2,
        ih rest done (cur.push c) hmem, push_append_chars]

/-- Scanning the delimiter-doubled image of a run inside a quoted region
recovers the run: each doubled delimiter contributes one delimiter. -/
theorem scanChars_doubled (sep delim : Char) (cs : List Char) :
    ∀ (rest : List Char) (done : List String) (cur : String), sep ≠ delim →
      scanChars sep delim
        ((cs.map fun c => if c = delim then [c, c] else [c]).flatten ++ rest)
        true done cur =
        scanChars sep delim rest true done (cur ++ ⟨cs⟩) := by
  induction cs with
  | nil => intro rest done cur _; simp [String.append_empty]
  | cons c cs ih =>
    intro rest done cur hne
    by_cases hc : c = delim
    · have hsh : ((c :: cs).map fun x => if x = delim then [x, x] else [x]).flatten ++ rest
          = delim :: delim ::
            ((cs.map fun x => if x = delim then [x, x] else [x]).flatten ++ rest) := by
        simp [hc]
      rw [hsh, scanChars_escape sep delim _ done cur hne, ih _ done _ hne,
        push_append_chars, hc]
    · have hsh : ((c :: cs).map fun x => if x = delim then [x, x] else [x]).flatten ++ rest
          = c :: ((cs.map fun x => if x = delim then [x, x] else [x]).flatten ++ rest) := by
        simp [hc]
      rw [hsh]
      by_cases hs : c = sep
      · rw [hs, scanChars_sep_in, ih _ done _ hne, ← hs, push_append_chars]
      · rw [scanChars_other sep delim c _ true done cur hs hc, ih _ done _ hne,
          push_append_chars]

/-- Unfolding `String.intercalate.go`. -/
theorem intercalate_go_spec (s : String) (bs : List String) :
    ∀ acc b : String,
      String.intercalate.go acc s (b :: bs) = acc ++ s ++ String.intercalate.go b s bs := by
  induction bs with
  | nil => intro acc b; rfl
  | cons c bs ih =>
    intro acc b
    show String.intercalate.go (acc ++ s ++ b) s (c :: bs) = _
    rw [ih (acc ++ s ++ b) c, ih b c]
    simp [String.append_assoc]

/-- `intercalate` on a two-or-more element list. -/
theorem intercalate_cons₂ (s a b : String) (l : List String) :
    String.intercalate s (a :: b :: l) = a ++ s ++ String.intercalate s (b :: l) := by
  show String.intercalate.go a s (b :: l) = _
  rw [intercalate_go_spec s l a b]
  rfl

/-- Scanning one escaped cell followed by a separator or end of line:
the unescaped cell lands in the current cell. -/
theorem scanChars_cell (cell : String) (rest : List Char)
    (done : List String) (cur : String)
    (hrest : rest = [] ∨ ∃ t, rest = ',' :: t) :
    scanChars ',' '"' ((escapeCell ',' '"' cell).data ++ rest) false done cur =
      scanChars ',' '"' rest false done (cur ++ cell) := by
  have hne : (',' : Char) ≠ '"' := by decide
  have hclose : ∀ cur' : String,
      scanChars ',' '"' ('"' :: rest) true done cur' =
        scanChars ',' '"' rest false done cur' := by
    intro cur'
    rcases hrest with h | ⟨t, h⟩
    · subst h
      rw [scanChars_delim_eol ',' '"' true done cur' hne, scanChars.eq_def]
    · subst h
      exact scanChars_close ',' '"' ',' t done cur' hne (by decide)
  unfold escapeCell
  by_cases hq : '"' ∈ cell.data
  · simp only [if_pos hq]
    show scanChars ',' '"'
      ((('"' :: (doubleDelims '"' cell).data) ++ ['"']) ++ rest) false done cur = _
    rw [List.append_assoc, List.singleton_append, List.cons_append,
      scanChars_open ',' '"' _ done cur hne]
    have hdd : (doubleDelims '"' cell).data =
        (cell.data.map fun c => if c = '"' then [c, c] else [c]).flatten := rfl
    rw [hdd, scanChars_doubled ',' '"' cell.data ('"' :: rest) done cur hne]
    exact hclose (cur ++ cell)
  · by_cases hw : ' ' ∈ cell.data ∨ ',' ∈ cell.data
    · simp only [if_neg hq, if_pos hw]
      show scanChars ',' '"' ((('"' :: cell.data) ++ ['"']) ++ rest) false done cur = _
      rw [List.append_assoc, List.singleton_append, List.cons_append,
        scanChars_open ',' '"' _ done cur hne]
      rw [scanChars_quoted ',' '"' cell.data ('"' :: rest) done cur hq]
      exact hclose (cur ++ cell)
    · simp only [if_neg hq, if_neg hw]
      push_neg at hw
      have hb : ∀ c ∈ cell.data, c ≠ ',' ∧ c ≠ '"' := by
        intro c hc
        exact ⟨fun h => hw.2 (h ▸ hc), fun h => hq (h ▸ hc)⟩
      rw [scanChars_bare ',' '"' cell.data rest done cur hb]

/-- Scanning a whole serialized row: the original cells come back, the first
merged into the current cell. -/
theorem scanChars_row (cs : List String) :
    ∀ (c : String) (done : List String) (cur : String),
      scanChars ',' '"' (serializeRow ',' '"' (c :: cs)).data false done cur =
        done ++ (cur ++ c) :: cs := by
  induction cs with
  | nil =>
    intro c done cur
    show scanChars ',' '"' (escapeCell ',' '"' c).data false done cur = _
    rw [← List.append_nil (escapeCell ',' '"' c).data,
      scanChars_cell c [] done cur (Or.inl rfl), scanChars.eq_def]
  | cons c2 cs ih =>
    intro c done cur
    have hsr : serializeRow ',' '"' (c :: c2 :: cs) =
        escapeCell ',' '"' c ++ String.singleton ',' ++ serializeRow ',' '"' (c2 :: cs) := by
      unfold serializeRow
      rw [List.map_cons, List.map_cons, intercalate_cons₂]
    rw [hsr]
    show scanChars ',' '"'
      (((escapeCell ',' '"' c).data ++ [',']) ++ (serializeRow ',' '"' (c2 :: cs)).data)
      false done cur = _
    rw [List.append_assoc, List.singleton_append,
      scanChars_cell c _ done cur (Or.inr ⟨_, rfl⟩),
      scanChars_sep_out, ih c2 (done ++ [cur ++ c]) ""]
    simp

/-- Tokenizing a serialized row recovers the row (the per-line inverse). -/
theorem tokenizeLine_serializeRow (row : List String) (hne : row ≠ []) :
    tokenizeLine ',' '"' (serializeRow ',' '"' row) = row := by
  obtain ⟨c, cs, rfl⟩ := List.exists_cons_of_ne_nil hne
  show scanChars ',' '"' (serializeRow ',' '"' (c :: cs)).data false [] "" = _
  rw [scanChars_row cs c [] ""]
  rfl

/-- Keys after one `upsert`: unchanged for a known key, appended for a
fresh one. -/
theorem upsert_keys {β : Type} (l : List (String × β)) (k : String) (v : β) :
    (upsert l k v).map Prod.fst =
      if k ∈ l.map Prod.fst then l.map Prod.fst else l.map Prod.fst ++ [k] := by
  induction l with
  | nil => simp [upsert]
  | cons p rest ih =>
    obtain ⟨k', v'⟩ := p
    by_cases h : k' = k
    · subst h
      simp [upsert]
    · by_cases hm : k ∈ rest.map Prod.fst <;>
        simp [upsert, h, ih, hm, Ne.symm h]

/-- `upsert` with a fresh key appends the entry. -/
theorem upsert_of_not_mem {β : Type} (l : List (String × β)) (k : String) (v : β)
    (h : k ∉ l.map Prod.fst) : upsert l k v = l ++ [(k, v)] := by
  induction l with
  | nil => rfl
  | cons p rest ih =>
    obtain ⟨k', v'⟩ := p
    have h1 : k' ≠ k := by
      intro he
      exact h (by simp [he])
    have h2 : k ∉ rest.map Prod.fst := fun hm => h (by simp [hm])
    simp [upsert, h1, ih h2]

/-- Every entry of an `upsert` result is an old entry or carries the new
value. -/
theorem mem_upsert {β : Type} (l : List (String × β)) (k : String) (v : β)
    (q : String × β) (h : q ∈ upsert l k v) : q ∈ l ∨ q.2 = v := by
  induction l with
  | nil =>
    simp [upsert] at h
    simp [h]
  | cons p rest ih =>
    obtain ⟨k', v'⟩ := p
    by_cases hk : k' = k
    · subst hk
      simp [upsert] at h
      rcases h with h | h
      · simp [h]
      · exact Or.inl (List.mem_cons_of_mem _ h)
    · simp [upsert, hk] at h
      rcases h with h | h
      · simp [h]
      · rcases ih h with h' | h'
        · exact Or.inl (List.mem_cons_of_mem _ h')
        · exact Or.inr h'

/-- `keysFold` never shortens the accumulated key list. -/
theorem keysFold_length_le (l : List String) :
    ∀ ks : List String, ks.length ≤ (keysFold ks l).length := by
  induction l with
  | nil => intro ks; simp [keysFold]
  | cons k t ih =>
    intro ks
    rw [keysFold]
    refine le_trans ?_ (ih _)
    split <;> simp

/-- The keys of the `fromEntries` fold are `keysFold` of the entry keys. -/
theorem foldl_upsert_keys {β : Type} (l : List (String × β)) :
    ∀ acc : List (String × β),
      ((l.foldl (fun a kv => upsert a kv.1 kv.2) acc).map Prod.fst) =
        keysFold (acc.map Prod.fst) (l.map Prod.fst) := by
  induction l with
  | nil => intro acc; rfl
  | cons kv t ih =>
    intro acc
    rw [List.foldl_cons, ih (upsert acc kv.1 kv.2), List.map_cons, keysFold,
      upsert_keys]

/-- The keys of `fromEntries` are the first occurrences of the entry keys. -/
theorem fromEntries_keys {β : Type} (l : List (String × β)) :
    (fromEntries l).map Prod.fst = keysFold [] (l.map Prod.fst) :=
  foldl_upsert_keys l []

/-- One `upsert` keeps the keys duplicate-free. -/
theorem upsert_keys_nodup {β : Type} (l : List (String × β)) (k : String) (v : β)
    (h : (l.map Prod.fst).Nodup) : ((upsert l k v).map Prod.fst).Nodup := by
  rw [upsert_keys]
  by_cases hm : k ∈ l.map Prod.fst
  · simpa [hm] using h
  · simp [if_neg hm, List.nodup_append, h, hm]

/-- The `fromEntries` fold keeps the keys duplicate-free. -/
theorem foldl_upsert_nodup {β : Type} (l : List (String × β)) :
    ∀ acc : List (String × β), (acc.map Prod.fst).Nodup →
      ((l.foldl (fun a kv => upsert a kv.1 kv.2) acc).map Prod.fst).Nodup := by
  induction l with
  | nil => intro acc h; exact h
  | cons kv t ih =>
    intro acc h
    rw [List.foldl_cons]
    exact ih _ (upsert_keys_nodup acc kv.1 kv.2 h)

/-- The keys of a `fromEntries` object are duplicate-free. -/
theorem fromEntries_keys_nodup {β : Type} (l : List (String × β)) :
    ((fromEntries l).map Prod.fst).Nodup :=
  foldl_upsert_nodup l [] (by simp)

/-- Folding duplicate-free entries just appends them. -/
theorem foldl_upsert_of_nodup {β : Type} (l : List (String × β)) :
    ∀ acc : List (String × β), (((acc ++ l).map Prod.fst)).Nodup →
      l.foldl (fun a kv => upsert a kv.1 kv.2) acc = acc ++ l := by
  induction l with
  | nil => intro acc _; simp
  | cons kv t ih =>
    intro acc h
    have hk : kv.1 ∉ acc.map Prod.fst := by
      have h2 := h
      rw [List.map_append, List.nodup_append] at h2
      intro hm
      exact (h2.2.2 hm) (by simp)
    rw [List.foldl_cons, upsert_of_not_mem acc kv.1 kv.2 hk]
    have hre : (acc ++ [(kv.1, kv.2)]) ++ t = acc ++ kv :: t := by simp
    have h' : (((acc ++ [(kv.1, kv.2)]) ++ t).map Prod.fst).Nodup := by
      rw [hre]; exact h
    rw [ih (acc ++ [(kv.1, kv.2)]) h', hre]

/-- `fromEntries` is the identity on duplicate-free entry lists. -/
theorem fromEntries_of_nodup {β : Type} (l : List (String × β))
    (h : (l.map Prod.fst).Nodup) : fromEntries l = l := by
  have := foldl_upsert_of_nodup l [] (by simpa using h)
  simpa [fromEntries] using this

/-- Values in a `fromEntries` object come from the entry list. -/
theorem fromEntries_values_prop {β : Type} (P : β → Prop) (l : List (String × β)) :
    ∀ acc : List (String × β), (∀ p ∈ acc, P p.2) → (∀ p ∈ l, P p.2) →
      ∀ p ∈ l.foldl (fun a kv => upsert a kv.1 kv.2) acc, P p.2 := by
  induction l with
  | nil => intro acc ha _ p hp; exact ha p hp
  | cons kv t ih =>
    intro acc ha hl p hp
    rw [List.foldl_cons] at hp
    refine ih (upsert acc kv.1 kv.2) ?_ (fun q hq => hl q (List.mem_cons_of_mem _ hq)) p hp
    intro q hq
    rcases mem_upsert acc kv.1 kv.2 q hq with h' | h'
    · exact ha q h'
    · rw [h']
      exact hl kv (List.mem_cons_self kv t)

/-- `jsMapIdx` with an index-independent function is `map`. -/
theorem mapIdxGo_const {β γ : Type} (G : β → γ) (l : List β) :
    ∀ i : Nat, mapIdxGo (fun _ b => G b) i l = l.map G := by
  induction l with
  | nil => intro i; rfl
  | cons b bs ih => intro i; rw [mapIdxGo, ih (i + 1), List.map_cons]

/-- `jsMapIdx` congruence on list members. -/
theorem mapIdxGo_congr {β γ : Type} (f g : Nat → β → γ) (l : List β) :
    ∀ i : Nat, (∀ j b, b ∈ l → f j b = g j b) → mapIdxGo f i l = mapIdxGo g i l := by
  induction l with
  | nil => intro i _; rfl
  | cons b bs ih =>
    intro i h
    rw [mapIdxGo, mapIdxGo, h i b (List.mem_cons_self b bs),
      ih (i + 1) fun j x hx => h j x (List.mem_cons_of_mem b hx)]

/-- The projector's entry list is a zip of headers with cell lookups. -/
theorem mapIdxGo_zip_lookup (hs : List String) :
    ∀ (row : List String) (i : Nat), i + hs.length ≤ row.length →
      mapIdxGo (fun ci cn => (cn, row[ci]?)) i hs = hs.zip ((row.drop i).map some) := by
  induction hs with
  | nil => intro row i _; simp [mapIdxGo]
  | cons cn hs ih =>
    intro row i h
    simp only [List.length_cons] at h
    have hi : i < row.length := by omega
    rw [mapIdxGo, List.getElem?_eq_getElem hi, ih row (i + 1) (by omega),
      List.drop_eq_getElem_cons hi, List.map_cons, List.zip_cons_cons]

/-- With no empty line, the loop index always equals `cells.length`, so
every line is tokenized into the pushed row. -/
theorem buildGridGo_clean (sep delim : Char) (lines : List String) :
    ∀ cells : List (List String), (∀ l ∈ lines, l ≠ "") →
      buildGridGo sep delim lines cells.length cells =
        .ok (cells ++ lines.map (tokenizeLine sep delim)) := by
  induction lines with
  | nil => intro cells _; simp [buildGridGo]
  | cons l rest ih =>
    intro cells h
    have hl : l ≠ "" := h l (List.mem_cons_self l rest)
    rw [buildGridGo]
    simp only [if_neg hl, if_pos rfl]
    have := ih (cells ++ [tokenizeLine sep delim l])
      fun x hx => h x (List.mem_cons_of_mem l hx)
    rw [List.length_append, List.length_singleton] at this
    rw [this]
    simp

/-- Tokenizing a run of non-empty lines yields one row per line, in order. -/
theorem buildGrid_clean (sep delim : Char) (lines : List String)
    (h : ∀ l ∈ lines, l ≠ "") :
    buildGrid sep delim lines = .ok (lines.map (tokenizeLine sep delim)) := by
  have := buildGridGo_clean sep delim lines [] h
  simpa [buildGrid] using this

/-- Every row of a successfully built grid is non-empty (a tokenized row is
`done ++ [cur]`; a row pushed past a skipped line stays `['']`). -/
theorem buildGridGo_rows_ne (sep delim : Char) (lines : List String) :
    ∀ (i : Nat) (cells out : List (List String)),
      buildGridGo sep delim lines i cells = .ok out →
      (∀ r ∈ cells, r ≠ []) → ∀ r ∈ out, r ≠ [] := by
  induction lines with
  | nil =>
    intro i cells out h hc
    rw [buildGridGo] at h
    cases h
    exact hc
  | cons l rest ih =>
    intro i cells out h hc
    rw [buildGridGo] at h
    by_cases hl : l = ""
    · rw [if_pos hl] at h
      exact ih (i + 1) cells out h hc
    · rw [if_neg hl] at h
      by_cases hi : i = cells.length
      · rw [if_pos hi] at h
        refine ih (i + 1) _ out h ?_
        intro r hr
        rcases List.mem_append.mp hr with h' | h'
        · exact hc r h'
        · rw [List.mem_singleton] at h'
          rw [h']
          exact scanChars_ne_nil sep delim l.data false [] ""
      · rw [if_neg hi] at h
        by_cases ht : lineThrows sep delim l.data false
        · rw [if_pos ht] at h
          cases h
        · rw [if_neg ht] at h
          refine ih (i + 1) _ out h ?_
          intro r hr
          rcases List.mem_append.mp hr with h' | h'
          · exact hc r h'
          · rw [List.mem_singleton] at h'
            rw [h']
            simp

/-- Every row of a successfully built grid is non-empty. -/
theorem buildGrid_rows_ne (sep delim : Char) (lines : List String)
    (out : List (List String)) (h : buildGrid sep delim lines = .ok out) :
    ∀ r ∈ out, r ≠ [] :=
  buildGridGo_rows_ne sep delim lines 0 [] out h (by simp)

/-- The shape check passes exactly when every row has row 0's cell count. -/
theorem malformed_false_iff (c0 : List String) (rest : List (List String)) :
    malformed (c0 :: rest) = false ↔ ∀ l ∈ c0 :: rest, l.length = c0.length := by
  unfold malformed
  rw [List.any_eq_false]
  constructor <;> intro h l hl
  · simpa using h l hl
  · simpa using h l hl

/-- Unpacking a successful default parse: a grid that tokenized, passed the
shape check, lost its head to the header resolver, and was projected. -/
theorem parseCSVDefault_ok (csv : String)
    (records : List (List (String × Option String)))
    (h : parseCSVDefault csv = .ok records) :
    ∃ cells, buildGrid ',' '"' (splitLines csv) = .ok cells ∧
      malformed cells = false ∧
      records = jsMapIdx (fun rowIdx row =>
        projectRow [] id (cells.headD []) row rowIdx) cells.tail := by
  unfold parseCSVDefault parseCSV at h
  cases hbg : buildGrid ',' '"' (splitLines csv) with
  | error e => rw [hbg] at h; cases h
  | ok cells =>
    rw [hbg] at h
    dsimp only at h
    by_cases hm : malformed cells
    · rw [if_pos hm] at h; cases h
    · rw [if_neg hm] at h
      cases h
      exact ⟨cells, rfl, by simpa using hm, rfl⟩

/-- With no callbacks the projector just zips headers with cell lookups. -/
theorem projectRow_default (hs row : List String) (ri : Nat)
    (h : hs.length = row.length) :
    projectRow ([] : List (String × (Option String → CsvCellMetadata → Option String)))
        id hs row ri = fromEntries (hs.zip (row.map some)) := by
  show fromEntries (mapIdxGo (fun ci cn => (cn, row[ci]?)) 0 hs) = _
  rw [mapIdxGo_zip_lookup hs row 0 (by omega), List.drop_zero]

/-- Re-projecting a record from its own keys and re-stringified values gives
the record back, provided its values are present strings and its keys are
duplicate-free. -/
theorem reproject_record (r : List (String × Option String))
    (hsome : ∀ p ∈ r, p.2.isSome)
    (hnd : (r.map Prod.fst).Nodup) :
    fromEntries ((r.map Prod.fst).zip
      ((r.map fun kv => stringifyCell (toVal kv.2)).map some)) = r := by
  have hmap : (r.map fun kv => stringifyCell (toVal kv.2)).map some = r.map Prod.snd := by
    rw [List.map_map]
    refine List.map_congr_left ?_
    intro kv hkv
    obtain ⟨s, hs⟩ := Option.isSome_iff_exists.mp (hsome kv hkv)
    simp [Function.comp, hs, toVal, stringifyCell]
  rw [hmap, Eq.symm (List.zip_of_prod rfl rfl), fromEntries_of_nodup r hnd]

/-- A non-empty key list folds to a non-empty key sequence. -/
theorem keysFold_ne_nil (c0 : List String) (h : c0 ≠ []) :
    keysFold [] c0 ≠ [] := by
  obtain ⟨x, c0', rfl⟩ := List.exists_cons_of_ne_nil h
  rw [keysFold]
  have hstep : (if x ∈ ([] : List String) then ([] : List String) else [] ++ [x]) = [x] := by
    simp
  rw [hstep]
  intro hnil
  have := keysFold_length_le c0' [x]
  rw [hnil] at this
  simp at this

/-! ## Claims -/

/-- Claim C1: the cell reference calculator on the spec's sample points.
The code agrees on 1, 26, 27, 52, 53 and 703, but on 702 it produces
`"AZ"` rather than the spec's `"ZZ"`: the digit list of `701` is
`[1, 0, 25]`, the non-final `0` digit is adjusted to `-1`, and
`characters[-1]` is `undefined`, which `join('')` drops. -/
theorem claim_C1 :
    numberToCharacters 1 = "A" ∧ numberToCharacters 26 = "Z" ∧
    numberToCharacters 27 = "AA" ∧ numberToCharacters 52 = "AZ" ∧
    numberToCharacters 53 = "BA" ∧ numberToCharacters 703 = "AAA" ∧
    numberToCharacters 702 = "AZ" ∧ "AZ" ≠ "ZZ" := by
  have h25 : toDigits 25 = [25] := by rw [toDigits, toDigits]; norm_num
  have h26 : toDigits 26 = [1, 0] := by rw [toDigits, toDigits, toDigits]; norm_num
  have h51 : toDigits 51 = [1, 25] := by rw [toDigits, toDigits, toDigits]; norm_num
  have h52 : toDigits 52 = [2, 0] := by rw [toDigits, toDigits, toDigits]; norm_num
  have h701 : toDigits 701 = [1, 0, 25] := by
    rw [toDigits, toDigits, toDigits, toDigits]; norm_num
  have h702 : toDigits 702 = [1, 1, 0] := by
    rw [toDigits, toDigits, toDigits, toDigits]; norm_num
  refine ⟨rfl, ?_, ?_, ?_, ?_, ?_, ?_, by decide⟩ <;>
    simp only [numberToCharacters, h25, h26, h51, h52, h701, h702,
      Nat.reduceSub, Nat.reduceEqDiff] <;> rfl

/-- Claim C2: an empty line between two non-empty lines does not lead to a
skipped line and one row per non-empty line; instead the parse rejects with
a `TypeError`.  After the empty line is skipped, the source's
`const result = cells[i]` (with `i` the index into `lines`, not into
`cells`) is `undefined`, and scanning `"b"` writes to it. -/
theorem claim_C2 : parseCSVDefault "a\n\nb" = .error .typeError := rfl

/-- Claim C3: the serializer's escape step with the alternative delimiter
`'\''`.  A cell containing the configured delimiter but no double-quote is
left bare (the source tests `cell.includes('"')` with a literal
double-quote), and a cell containing a double-quote is wrapped even though
it does not contain the configured delimiter — contradicting the claimed
rule for every configured delimiter. -/
theorem claim_C3 :
    escapeCell ',' '\'' ⟨['a', '\'', 'b']⟩ = ⟨['a', '\'', 'b']⟩ ∧
    escapeCell ',' '\'' ⟨['a', '"', 'b']⟩ = ⟨['\'', 'a', '"', 'b', '\'']⟩ := by
  constructor <;> rfl

/-- Claim C5: whenever tokenization succeeds and the resulting grid has a
row whose cell count differs from row 0's, `parseCSV` rejects with the
malformed-input `SyntaxError` — for any options and callbacks, with no
partial result. -/
theorem claim_C5 {α : Type} (sep delim : Char) (header : HeaderOption)
    (callbacks : List (String × (Option String → CsvCellMetadata → α)))
    (ofCell : Option String → α) (csv : String) (cells : List (List String))
    (hok : buildGrid sep delim (splitLines csv) = .ok cells)
    (hmal : malformed cells = true) :
    parseCSV sep delim header callbacks ofCell csv =
      .error (.syntaxError "Malformed CSV") := by
  unfold parseCSV
  rw [hok]
  simp [hmal]

/-- Witness for C5 at `"a,b\nc"`, whose grid is `[["a","b"], ["c"]]`. -/
theorem claim_C5_witness :
    parseCSV ',' '"' .firstRow
      ([] : List (String × (Option String → CsvCellMetadata → Option String)))
      id "a,b\nc" = .error (.syntaxError "Malformed CSV") :=
  claim_C5 ',' '"' .firstRow [] id "a,b\nc" [["a", "b"], ["c"]] rfl rfl

/-- Claim C6: a separator inside a quoted field is appended to the current
cell (for any configuration — the `case separator` arm precedes the
delimiter arm), and tokenizing `a,"b,c",d` yields `["a", "b,c", "d"]`. -/
theorem claim_C6 :
    tokenizeLine ',' '"' "a,\"b,c\",d" = ["a", "b,c", "d"] ∧
    ∀ (sep delim : Char) (rest : List Char) (done : List String) (cur : String),
      scanChars sep delim (sep :: rest) true done cur =
        scanChars sep delim rest true done (cur.push sep) := by
  refine ⟨rfl, ?_⟩
  intro sep delim rest done cur
  rw [scanChars.eq_def]
  simp

/-- Claim C7: inside a quoted field, a delimiter immediately followed by
another delimiter appends one literal delimiter and consumes both
characters (when the delimiter is a distinct token from the separator),
and tokenizing `"he said ""hi"""` yields the single cell `he said "hi"`. -/
theorem claim_C7 :
    tokenizeLine ',' '"' "\"he said \"\"hi\"\"\"" = ["he said \"hi\""] ∧
    ∀ (sep delim : Char) (rest : List Char) (done : List String) (cur : String),
      sep ≠ delim →
      scanChars sep delim (delim :: delim :: rest) true done cur =
        scanChars sep delim rest true done (cur.push delim) := by
  refine ⟨rfl, ?_⟩
  intro sep delim rest done cur hne
  rw [scanChars.eq_def]
  simp [Ne.symm hne]

/-- Witness for the escaped-quote rule of C7 with the default tokens. -/
theorem claim_C7_witness :
    scanChars ',' '"' ['"', '"', 'x'] true [] "y" =
      scanChars ',' '"' ['x'] true [] (String.push "y" '"') :=
  claim_C7.2 ',' '"' ['x'] [] "y" (by decide)

/-- Claim C8: in the projector's value resolution, a name-keyed callback
wins even when an index-keyed callback also exists (the result is the
name-keyed callback's, so the index-keyed one is never invoked), and with
no entry under either key the raw cell passes through unchanged. -/
theorem claim_C8 :
    (∀ (α : Type) (callbacks : List (String × (Option String → CsvCellMetadata → α)))
       (ofCell : Option String → α) (colName : String) (colIdx : Nat)
       (cell : Option String) (md : CsvCellMetadata)
       (f g : Option String → CsvCellMetadata → α),
       jsLookup callbacks colName = some f →
       jsLookup callbacks (toString colIdx) = some g →
       resolveCell callbacks ofCell colName colIdx cell md = f cell md) ∧
    (∀ (α : Type) (callbacks : List (String × (Option String → CsvCellMetadata → α)))
       (ofCell : Option String → α) (colName : String) (colIdx : Nat)
       (cell : Option String) (md : CsvCellMetadata),
       jsLookup callbacks colName = none →
       jsLookup callbacks (toString colIdx) = none →
       resolveCell callbacks ofCell colName colIdx cell md = ofCell cell) := by
  constructor
  · intro α callbacks ofCell colName colIdx cell md f g hname _hidx
    simp [resolveCell, hname]
  · intro α callbacks ofCell colName colIdx cell md hname hidx
    simp [resolveCell, hname, hidx]

/-- Witness for C8: both a name-keyed (`"n"`) and an index-keyed (`"0"`)
callback exist; the name-keyed one determines the value. -/
theorem claim_C8_witness :
    resolveCell [("n", fun _ _ => "N"), ("0", fun _ _ => "I")]
      (fun c => c.getD "") "n" 0 (some "x")
      (csvCellMetadataFactory 1 "n" 1) = "N" :=
  claim_C8.1 String [("n", fun _ _ => "N"), ("0", fun _ _ => "I")]
    (fun c => c.getD "") "n" 0 (some "x") (csvCellMetadataFactory 1 "n" 1)
    (fun _ _ => "N") (fun _ _ => "I") rfl rfl

/-- Claim C9: `toCsv` rejects with the missing-input error exactly on a
`null`/`undefined` or empty record array; any non-empty array serializes
successfully. -/
theorem claim_C9 (sep delim : Char) :
    toCsv sep delim none = .error (.syntaxError "data not provided") ∧
    toCsv sep delim (some []) = .error (.syntaxError "data not provided") ∧
    ∀ (d0 : List (String × JsCellValue)) (rest : List (List (String × JsCellValue))),
      ∃ out, toCsv sep delim (some (d0 :: rest)) = .ok out :=
  ⟨rfl, rfl, fun _ _ => ⟨_, rfl⟩⟩

/-- Claim C10: the empty string, and any input all of whose lines are
empty, parse to the empty record list (for any options — in particular the
default `header: true` — and callbacks), with no rejection even though no
header row exists. -/
theorem claim_C10 :
    parseCSVDefault "" = .ok [] ∧
    ∀ (α : Type) (sep delim : Char) (header : HeaderOption)
      (callbacks : List (String × (Option String → CsvCellMetadata → α)))
      (ofCell : Option String → α) (csv : String),
      (∀ l ∈ splitLines csv, l = "") →
      parseCSV sep delim header callbacks ofCell csv = .ok [] := by
  refine ⟨rfl, ?_⟩
  intro α sep delim header callbacks ofCell csv h
  unfold parseCSV buildGrid
  rw [buildGridGo_allEmpty sep delim (splitLines csv) 0 [] h]
  cases header <;> rfl

/-- Witness for C10 at `"\n"` (two empty lines) with non-default options. -/
theorem claim_C10_witness :
    parseCSV ';' '\'' .firstRow
      ([] : List (String × (Option String → CsvCellMetadata → Option String)))
      id "\n" = .ok [] :=
  claim_C10.2 (Option String) ';' '\'' .firstRow [] id "\n" (by decide)

/-- Claim C4, amended.  The unamended claim fails (see
`claim_C4_counterexample`): a serialized row can be an empty line, which the
re-parse skips.  Amended: for every text whose default parse succeeds with a
non-empty record list, if none of the serialized lines is empty and splitting
the re-serialized text on line boundaries returns exactly the serialized
lines (no non-final line ends in a carriage return), then `toCsv` succeeds
and re-parsing its output yields exactly the original records. -/
theorem claim_C4 (csv : String) (records : List (List (String × Option String)))
    (h1 : parseCSVDefault csv = .ok records)
    (h2 : records ≠ [])
    (h3 : ∀ l ∈ serializedLines records, l ≠ "")
    (h4 : splitLines (String.intercalate "\n" (serializedLines records)) =
      serializedLines records) :
    toCsv ',' '"' (some (recordsToData records)) =
      .ok (String.intercalate "\n" (serializedLines records)) ∧
    parseCSVDefault (String.intercalate "\n" (serializedLines records)) = .ok records := by
  obtain ⟨cells, hbg, hmal, hrec⟩ := parseCSVDefault_ok csv records h1
  have hct : cells.tail ≠ [] := by
    intro hnil
    rw [hnil] at hrec
    exact h2 (by simpa [jsMapIdx, mapIdxGo] using hrec)
  obtain ⟨c0, t, rfl⟩ : ∃ c0 t, cells = c0 :: t := by
    cases cells with
    | nil => simp at hct
    | cons a b => exact ⟨a, b, rfl⟩
  have hlen : ∀ l ∈ c0 :: t, l.length = c0.length := (malformed_false_iff c0 t).mp hmal
  have hrowsne : ∀ r ∈ c0 :: t, r ≠ [] := buildGrid_rows_ne ',' '"' _ _ hbg
  have hc0ne : c0 ≠ [] := hrowsne c0 (List.mem_cons_self c0 t)
  have hrec' : records = t.map (fun row => fromEntries (c0.zip (row.map some))) := by
    rw [hrec]
    show mapIdxGo (fun rowIdx row => projectRow [] id c0 row rowIdx) 0 t = _
    rw [mapIdxGo_congr _ (fun _ row => fromEntries (c0.zip (row.map some))) t 0
      (fun j row hrow => projectRow_default c0 row j
        (hlen row (List.mem_cons_of_mem c0 hrow)).symm),
      mapIdxGo_const]
  have hkeys : ∀ r ∈ records, r.map Prod.fst = keysFold [] c0 := by
    rw [hrec']
    intro r hr
    rw [List.mem_map] at hr
    obtain ⟨row, hrow, rfl⟩ := hr
    rw [fromEntries_keys]
    congr 1
    refine List.map_fst_zip c0 (row.map some) ?_
    rw [List.length_map, hlen row (List.mem_cons_of_mem c0 hrow)]
  have hvals : ∀ r ∈ records, ∀ p ∈ r, p.2.isSome := by
    rw [hrec']
    intro r hr
    rw [List.mem_map] at hr
    obtain ⟨row, hrow, rfl⟩ := hr
    intro p hp
    refine fromEntries_values_prop (fun v => v.isSome = true) _ [] (by simp) ?_ p hp
    intro q hq
    obtain ⟨a, b⟩ := q
    have hb := (List.of_mem_zip hq).2
    rw [List.mem_map] at hb
    obtain ⟨s, _, hs⟩ := hb
    simp [← hs]
  have hnd : ∀ r ∈ records, (r.map Prod.fst).Nodup := by
    rw [hrec']
    intro r hr
    rw [List.mem_map] at hr
    obtain ⟨row, hrow, rfl⟩ := hr
    exact fromEntries_keys_nodup _
  obtain ⟨r0, rs, rfl⟩ := List.exists_cons_of_ne_nil h2
  have hKne : keysFold [] c0 ≠ [] := keysFold_ne_nil c0 hc0ne
  have hr0mem : r0 ∈ r0 :: rs := List.mem_cons_self r0 rs
  have hgrid : toCsvRows (recordsToData (r0 :: rs)) =
      (r0.map Prod.fst) :: (r0 :: rs).map
        (fun r => r.map fun kv => stringifyCell (toVal kv.2)) := by
    show ((r0.map fun kv => (kv.1, toVal kv.2)).map Prod.fst) ::
        ((r0 :: rs).map fun r => r.map fun kv => (kv.1, toVal kv.2)).map
          (fun r => r.map fun kv => stringifyCell kv.2) = _
    congr 1
    · rw [List.map_map]
      exact List.map_congr_left fun kv _ => rfl
    · rw [List.map_map]
      refine List.map_congr_left ?_
      intro r _
      show ((r.map fun kv => (kv.1, toVal kv.2)).map fun kv => stringifyCell kv.2) = _
      rw [List.map_map]
      exact List.map_congr_left fun kv _ => rfl
  have hGrowne : ∀ r ∈ toCsvRows (recordsToData (r0 :: rs)), r ≠ [] := by
    rw [hgrid]
    intro r hr
    rcases List.mem_cons.mp hr with h' | h'
    · rw [h', hkeys r0 hr0mem]
      exact hKne
    · rw [List.mem_map] at h'
      obtain ⟨rr, hrr, rfl⟩ := h'
      intro habs
      apply hKne
      rw [← hkeys rr hrr, List.map_eq_nil_iff.mp habs]
      rfl
  have hbg2 : buildGrid ',' '"' (serializedLines (r0 :: rs)) =
      .ok (toCsvRows (recordsToData (r0 :: rs))) := by
    rw [buildGrid_clean ',' '"' _ h3]
    congr 1
    show ((toCsvRows (recordsToData (r0 :: rs))).map (serializeRow ',' '"')).map
      (tokenizeLine ',' '"') = _
    rw [List.map_map]
    refine (List.map_congr_left ?_).trans (List.map_id _)
    intro r hr
    exact tokenizeLine_serializeRow r (hGrowne r hr)
  refine ⟨rfl, ?_⟩
  unfold parseCSVDefault parseCSV
  rw [h4, hbg2]
  dsimp only
  have hmal2 : malformed (toCsvRows (recordsToData (r0 :: rs))) = false := by
    rw [hgrid, malformed_false_iff]
    intro l hl
    rcases List.mem_cons.mp hl with h' | h'
    · rw [h']
    · rw [List.mem_map] at h'
      obtain ⟨rr, hrr, rfl⟩ := h'
      rw [List.length_map]
      have e1 : rr.length = (keysFold [] c0).length := by
        rw [← hkeys rr hrr, List.length_map]
      have e2 : (r0.map Prod.fst).length = (keysFold [] c0).length := by
        rw [hkeys r0 hr0mem]
      rw [e1, e2]
  rw [if_neg (by simp [hmal2])]
  congr 1
  rw [hgrid]
  show jsMapIdx (fun ri row => projectRow [] id (r0.map Prod.fst) row ri)
      ((r0 :: rs).map fun r => r.map fun kv => stringifyCell (toVal kv.2)) = r0 :: rs
  unfold jsMapIdx
  rw [mapIdxGo_congr _
    (fun _ row => fromEntries ((r0.map Prod.fst).zip (row.map some))) _ 0 ?_,
    mapIdxGo_const, List.map_map]
  · refine (List.map_congr_left ?_).trans (List.map_id _)
    intro r hr
    show fromEntries ((r0.map Prod.fst).zip
      ((r.map fun kv => stringifyCell (toVal kv.2)).map some)) = r
    rw [hkeys r0 hr0mem, ← hkeys r hr]
    exact reproject_record r (hvals r hr) (hnd r hr)
  · intro j row hrow
    refine projectRow_default (r0.map Prod.fst) row j ?_
    rw [List.mem_map] at hrow
    obtain ⟨rr, hrr, rfl⟩ := hrow
    rw [List.length_map, List.length_map]
    have e1 : r0.length = (keysFold [] c0).length := by
      rw [← hkeys r0 hr0mem, List.length_map]
    have e2 : rr.length = (keysFold [] c0).length := by
      rw [← hkeys rr hrr, List.length_map]
    rw [e1, e2]

/-- Counterexample to claim C4 as stated: `"a\n\"\""` is valid rectangular
CSV text parsing to one record with an empty-string value; re-serializing
produces `"a\n"` (the value row is an empty line), and re-parsing that skips
the empty line and yields no records at all, which is not semantically
equivalent to the original single record. -/
theorem claim_C4_counterexample :
    parseCSVDefault "a\n\"\"" = .ok [[("a", some "")]] ∧
    toCsv ',' '"' (some (recordsToData [[("a", some "")]])) = .ok "a\n" ∧
    parseCSVDefault "a\n" = .ok [] ∧
    ([] : List (List (String × Option String))) ≠ [[("a", some "")]] :=
  ⟨rfl, rfl, rfl, by decide⟩

/-- Witness for the amended C4 at `"h1,h2\nv1,v 2"` (one record, one value
serialized bare, one wrapped for its space). -/
theorem claim_C4_witness :
    toCsv ',' '"' (some (recordsToData [[("h1", some "v1"), ("h2", some "v 2")]])) =
      .ok (String.intercalate "\n" (serializedLines [[("h1", some "v1"), ("h2", some "v 2")]])) ∧
    parseCSVDefault
        (String.intercalate "\n" (serializedLines [[("h1", some "v1"), ("h2", some "v 2")]])) =
      .ok [[("h1", some "v1"), ("h2", some "v 2")]] :=
  claim_C4 "h1,h2\nv1,v 2" [[("h1", some "v1"), ("h2", some "v 2")]]
    rfl (by decide) (by decide) rfl


end CsvParser
